import Mathlib

/-!
# httpod: the proxy handler (`internal/proxy/handler.go`)

A shallow embedding of the three functions of the proxy handler,
`configureBackendRequest`, `requestBackend` and `GetHandler`, together with the
properties of them that the specification states.

Conventions of the embedding.

* A Go `string` and a Go `[]byte` are both a Lean `String`; the conversions
  `[]byte(s)` and `string(b)` are the identity.
* A Go pointer is an `Option`: `nil` is `none`.
* A Go `map[string]string` is an association list whose first entry for a key is
  the entry of the map; a `nil` map and an empty map are both `[]` (the handler
  only ranges over the map and indexes it, which does not tell them apart).
* The shared variable `Br` and the other package variables are passed explicitly
  (`Globals`), and so is the state of the network (`W`).
* Functions of the Go standard library whose result depends on data the handler
  does not inspect (`url.Parse`, the JSON decoder and encoder, `http.NewRequest`,
  `http.Client.Do`) are fields of an environment `Env`; the small ones the handler
  relies on directly (`strings.ToUpper`, `http.Header.Get`, `http.Header.Add`,
  `ioutil.ReadAll`) are written out.
* A nil-pointer dereference is the outcome `Outcome.panicked`.
-/

namespace Httpod

/-! ## Go values used by the handler -/

/-- Go `map[string]string`. -/
abbrev StringMap := List (String × String)

/-- Index expression `m[k]` on a `map[string]string`: the value stored under `k`,
the zero value `""` when there is none. -/
def mapIndex (m : StringMap) (k : String) : String :=
  match m.find? (fun kv => kv.1 == k) with
  | some kv => kv.2
  | none => ""

/-- Go `http.Header`, a `map[string][]string`. -/
abbrev Header := List (String × List String)

/-- Index expression `h[k]` on a header: the values stored under exactly the key
`k`, the nil slice when there is none. -/
def headerIndex (h : Header) (k : String) : List String :=
  match h.find? (fun kv => kv.1 == k) with
  | some kv => kv.2
  | none => []

/-- Assignment `h[k] = vs` on a header. -/
def headerSet : Header → String → List String → Header
  | [], k, vs => [(k, vs)]
  | (k0, v0) :: rest, k, vs =>
    if k0 == k then (k, vs) :: rest else (k0, v0) :: headerSet rest k vs

/-- The bytes allowed in a header field name (`httpguts` token table): letters,
digits and ``!#$%&'*+-.^_`|~``. -/
def validHeaderFieldByte (c : Char) : Bool :=
  c.isAlphanum || "!#$%&*+-.^_|~".data.contains c || c == Char.ofNat 39 || c == Char.ofNat 96

/-- The canonicalising loop of `textproto.canonicalMIMEHeaderKey`: upper case for
the first letter and for a letter after a dash, lower case for the others. -/
def canonicalLoop : Bool → List Char → List Char
  | _, [] => []
  | upper, c :: cs =>
    let c1 := if upper && c.isLower then c.toUpper
              else if !upper && c.isUpper then c.toLower else c
    c1 :: canonicalLoop (c1 == '-') cs

/-- Go `textproto.CanonicalMIMEHeaderKey`: a key made of header field bytes only
is canonicalised, any other key is returned unchanged. -/
def CanonicalMIMEHeaderKey (s : String) : String :=
  if s.data.all validHeaderFieldByte then String.mk (canonicalLoop true s.data) else s

/-- Go `http.Header.Get`: the first value stored under the canonical form of the
key, `""` when there is none. -/
def Header.Get (h : Header) (key : String) : String :=
  match headerIndex h (CanonicalMIMEHeaderKey key) with
  | [] => ""
  | v :: _ => v

/-- Go `http.Header.Values`: all the values stored under the canonical form of the
key. -/
def Header.Values (h : Header) (key : String) : List String :=
  headerIndex h (CanonicalMIMEHeaderKey key)

/-- Go `http.Header.Add`: appends the value to those stored under the canonical
form of the key. -/
def Header.Add (h : Header) (key value : String) : Header :=
  let key := CanonicalMIMEHeaderKey key
  headerSet h key (headerIndex h key ++ [value])

/-- The ASCII branch of `strings.ToUpper`. -/
def asciiUpper (c : Char) : Char :=
  if 'a' ≤ c ∧ c ≤ 'z' then Char.ofNat (c.toNat - 32) else c

/-- Go `strings.ToUpper`: an ASCII-only string has its lower-case letters raised,
any other string is mapped rune by rune through `unicode.ToUpper`, which is the
parameter `unicodeToUpper`. -/
def ToUpper (unicodeToUpper : Char → Char) (s : String) : String :=
  if s.data.all (fun c => c.toNat < 128) then String.mk (s.data.map asciiUpper)
  else String.mk (s.data.map unicodeToUpper)

/-- The fields of Go `url.URL` (the user information apart). -/
structure URL where
  Scheme : String
  Opaque : String
  Host : String
  Path : String
  RawQuery : String
  Fragment : String
deriving DecidableEq, Repr

/-- The fields of Go `http.Request` the handler and the result depend on. -/
structure Request where
  Method : String
  URL : Option URL
  Header : Header
  RequestURI : String
deriving DecidableEq, Repr

/-- A response body as `ioutil.ReadAll` finds it: the bytes that can be read and
the error, if any, that ends the reading. -/
structure Body where
  data : String
  err : Option String
deriving DecidableEq, Repr

/-- Go `ioutil.ReadAll`: the bytes read and the error that stopped the reading. -/
def ReadAll (b : Body) : String × Option String := (b.data, b.err)

/-- The fields of Go `http.Response` the handler reads. -/
structure Response where
  StatusCode : Int
  Header : Option Header
  Body : Body
  Request : Option Request
deriving DecidableEq, Repr

/-- The fields of Go `http.Transport` the handler sets; the timeout is in
nanoseconds, the unit of `time.Duration`. -/
structure Transport where
  MaxIdleConns : Int
  IdleConnTimeout : Int
  DisableCompression : Bool
deriving DecidableEq, Repr

/-- Go `time.Second`, in nanoseconds. -/
def Second : Int := 1000000000

/-- Go `http.Client`, with the one field the handler sets. -/
structure Client where
  Transport : Option Transport
deriving DecidableEq, Repr

/-- Modelled from the spec: the declaration of the type `BackendRequest` is not in
the source file. The fields are the ones the handler uses (`Method`, `Url`,
`AdditionalHeaders`, `HttpClient`, `Request`) and the body the specification lists
for the call descriptor, which the handler never touches. -/
structure BackendRequest where
  Method : String
  Url : Option URL
  AdditionalHeaders : StringMap
  Body : String
  HttpClient : Option Client
  Request : Option Request
deriving DecidableEq, Repr

/-- Modelled from the spec: the declaration of the type `BackendResponse` is not in
the source file. The fields are the ones the handler sets, which are those of the
call result of the specification; `Headers` is a pointer to a header. -/
structure BackendResponse where
  StatusCode : Int
  URI : String
  Headers : Option Header
  Body : String
deriving DecidableEq, Repr

/-- The zero value of `BackendRequest`, the initial value of the variable `Br`. -/
def BackendRequest.zero : BackendRequest :=
  { Method := "", Url := none, AdditionalHeaders := [], Body := "",
    HttpClient := none, Request := none }

/-- The zero value of `BackendResponse`, `&BackendResponse{}`. -/
def BackendResponse.zero : BackendResponse :=
  { StatusCode := 0, URI := "", Headers := none, Body := "" }

/-! ## The standard library the handler calls -/

/-- The library functions whose results the handler takes as they come. `W` is
the state of the world outside the process (the network and the backends). -/
structure Env (W : Type) where
  /-- Go `unicode.ToUpper`. -/
  unicodeToUpper : Char → Char
  /-- Go `url.Parse`: the parsed URL or the text of the error. -/
  urlParse : String → Except String URL
  /-- Go `(*url.URL).String`. -/
  urlString : URL → String
  /-- The syntax check `json.Unmarshal` starts with: the text of the syntax error
  of the input, `none` for well-formed JSON. -/
  jsonCheckValid : String → Option String
  /-- The decoding of well-formed JSON into a `map[string]string` that holds the
  given entries already: the map afterwards and the error, if any. -/
  jsonDecode : String → StringMap → StringMap × Option String
  /-- Go `json.MarshalIndent` of a `*BackendResponse`. -/
  jsonMarshalIndent : Option BackendResponse → Except String String
  /-- Go `http.NewRequest` with method, URL text and a nil body. -/
  NewRequest : String → String → Except String Request
  /-- Go `(*http.Client).Do`: the response or the text of the error, and the world
  afterwards. -/
  Do : Client → Request → W → Except String Response × W

/-- Go `json.Unmarshal` into a `map[string]string`: input that is not well-formed
JSON is refused before anything is stored, well-formed input is decoded into the
map as it stands. Returns the map afterwards and the error. -/
def jsonUnmarshal {W : Type} (env : Env W) (data : String) (m : StringMap) :
    StringMap × Option String :=
  match env.jsonCheckValid data with
  | some e => (m, some e)
  | none => env.jsonDecode data m

/-! ## The handler -/

/-- The outcome of a Go call: it returns a value or it panics. -/
inductive Outcome (α : Type) where
  | returned (a : α)
  | panicked
deriving DecidableEq, Repr

/-- The method `configureBackendRequest`: the receiver afterwards and the error
returned (`none` for `nil`). -/
def configureBackendRequest {W : Type} (env : Env W) (br : BackendRequest) (req : Request) :
    BackendRequest × Option String :=
  let br := { br with Method := ToUpper env.unicodeToUpper (Header.Get req.Header "method") }
  let br := if br.Method = "" then { br with Method := "GET" } else br
  match env.urlParse (Header.Get req.Header "url") with
  | .error e => ({ br with Url := none }, some e)
  | .ok u =>
    let br := { br with Url := some u }
    if u.Scheme = "" ∨ u.Host = "" then
      (br, some "Invalid query input.")
    else
      let additionalHeaders := Header.Get req.Header "additionalHeaders"
      let br := { br with AdditionalHeaders := (jsonUnmarshal env additionalHeaders br.AdditionalHeaders).1 }
      (br, none)

/-- The loop of `requestBackend` over `br.AdditionalHeaders`: the loop variable
`header` is the second component of `range`, the value of the entry. -/
def replayHeaders (additionalHeaders : StringMap) (h : Header) : Header :=
  additionalHeaders.foldl
    (fun h entry => let header := entry.2
                    Header.Add h header (mapIndex additionalHeaders "header")) h

/-- The method `requestBackend`: the pair it returns (or the panic), the receiver
afterwards and the world afterwards. -/
def requestBackend {W : Type} (env : Env W) (br : BackendRequest) (w : W) :
    Outcome (Option BackendResponse × Option String) × BackendRequest × W :=
  let backendTransport : Transport :=
    { MaxIdleConns := 3, IdleConnTimeout := 5 * Second, DisableCompression := true }
  let backendResponse := BackendResponse.zero
  let br := match br.HttpClient with
    | none => { br with HttpClient := some { Transport := some backendTransport } }
    | some _ => br
  match br.Url, br.HttpClient with
  | none, _ => (.panicked, br, w)
  | _, none => (.panicked, br, w)
  | some u, some client =>
    match env.NewRequest br.Method (env.urlString u) with
    | .error e =>
      (.returned (none, some ("Error on proxied request: " ++ e)), { br with Request := none }, w)
    | .ok r =>
      let r := { r with Header := replayHeaders br.AdditionalHeaders r.Header }
      let br := { br with Request := some r }
      match env.Do client r w with
      | (.error e, w) => (.returned (none, some e), br, w)
      | (.ok res, w) =>
        match ReadAll res.Body with
        | (_, some e) => (.returned (none, some ("Error parsing body: " ++ e)), br, w)
        | (backendHttpResponseBytes, none) =>
          let backendResponse :=
            if res.StatusCode ≠ 0 then { backendResponse with StatusCode := res.StatusCode }
            else backendResponse
          let backendResponse :=
            match res.Request with
            | some rq =>
              if rq.RequestURI ≠ "" then { backendResponse with URI := rq.RequestURI }
              else backendResponse
            | none => backendResponse
          let backendResponse :=
            match res.Header with
            | some h => { backendResponse with Headers := some h }
            | none => backendResponse
          let responseBody := backendHttpResponseBytes
          let backendResponse :=
            if responseBody ≠ "" then { backendResponse with Body := responseBody }
            else backendResponse
          (.returned (some backendResponse, none), br, w)

/-- The package variables of the handler. -/
structure Globals where
  jsonResp : Option String
  resp : Option BackendResponse
  err : Option String
  Br : BackendRequest
deriving DecidableEq, Repr

/-- The initial values of the package variables. -/
def Globals.init : Globals :=
  { jsonResp := none, resp := none, err := none, Br := BackendRequest.zero }

/-- What `context.String(code, text)` writes to the caller. -/
structure Reply where
  code : Nat
  text : String
deriving DecidableEq, Repr

/-- Go `http.StatusBadRequest`. -/
def StatusBadRequest : Nat := 400
/-- Go `http.StatusInternalServerError`. -/
def StatusInternalServerError : Nat := 500
/-- Go `http.StatusOK`. -/
def StatusOK : Nat := 200

/-- The function `GetHandler` on the request of the context: the reply written (or
the panic), the package variables afterwards and the world afterwards. -/
def GetHandler {W : Type} (env : Env W) (g : Globals) (req : Request) (w : W) :
    Outcome Reply × Globals × W :=
  match configureBackendRequest env g.Br req with
  | (br, some e) =>
    (.returned ⟨StatusBadRequest, e⟩, { g with Br := br, err := some e }, w)
  | (br, none) =>
    let g := { g with Br := br, err := none }
    match requestBackend env g.Br w with
    | (.panicked, br, w) => (.panicked, { g with Br := br }, w)
    | (.returned (r, some e), br, w) =>
      (.returned ⟨StatusInternalServerError, e⟩, { g with Br := br, resp := r, err := some e }, w)
    | (.returned (r, none), br, w) =>
      let g := { g with Br := br, resp := r, err := none }
      match env.jsonMarshalIndent g.resp with
      | .error e =>
        (.returned ⟨StatusInternalServerError, e⟩, { g with jsonResp := none, err := some e }, w)
      | .ok js =>
        (.returned ⟨StatusOK, js⟩, { g with jsonResp := some js, err := none }, w)

/-- A call on the shared `BackendRequest`: the builder on an inbound request, or
the relay. -/
inductive Call where
  | configure (req : Request)
  | request
deriving DecidableEq, Repr

/-- One call on the shared `BackendRequest`: the receiver and the world
afterwards. -/
def runCall {W : Type} (env : Env W) (s : BackendRequest × W) : Call → BackendRequest × W
  | .configure req => ((configureBackendRequest env s.1 req).1, s.2)
  | .request => (requestBackend env s.1 s.2).2

/-- A sequence of calls on the shared `BackendRequest`, first to last. -/
def runCalls {W : Type} (env : Env W) (s : BackendRequest × W) (calls : List Call) :
    BackendRequest × W :=
  calls.foldl (runCall env) s

/-! ## A concrete environment
An instance of `Env` on which the handler can be run. The world is the list of
the requests sent so far; the backend is a function of the request. Each library
function is a small version of the Go one that agrees with it on the inputs used
below: URLs of the form `scheme://host/path` or without a scheme, JSON documents
that are flat objects of strings written without blanks or escapes. -/

/-- Characters before the first occurrence of `sep`, and the characters after it
when there is one. -/
def cutAt (sep : Char) : List Char → List Char × Option (List Char)
  | [] => ([], none)
  | c :: cs =>
    if c = sep then ([], some cs)
    else ((cutAt sep cs).1.cons c, (cutAt sep cs).2)

/-- The sample `url.Parse`: control characters are refused; `scheme://host/path`
gives scheme, host and path; text without a colon is a path. -/
def sampleUrlParse (s : String) : Except String URL :=
  if s.data.any (fun c => c.toNat < 32 || c.toNat == 127) then
    .error "net/url: invalid control character in URL"
  else
    match cutAt ':' s.data with
    | (_, none) =>
      .ok { Scheme := "", Opaque := "", Host := "", Path := s, RawQuery := "", Fragment := "" }
    | ([], some _) => .error "missing protocol scheme"
    | (scheme, some ('/' :: '/' :: rest)) =>
      .ok { Scheme := String.mk (scheme.map Char.toLower), Opaque := "",
            Host := String.mk (rest.takeWhile (fun c => c != '/')),
            Path := String.mk (rest.dropWhile (fun c => c != '/')),
            RawQuery := "", Fragment := "" }
    | (scheme, some rest) =>
      .ok { Scheme := String.mk (scheme.map Char.toLower), Opaque := String.mk rest,
            Host := "", Path := "", RawQuery := "", Fragment := "" }

/-- The sample `(*url.URL).String`. -/
def sampleUrlString (u : URL) : String :=
  if u.Opaque ≠ "" then u.Scheme ++ ":" ++ u.Opaque
  else if u.Scheme ≠ "" then u.Scheme ++ "://" ++ u.Host ++ u.Path
  else u.Path

/-- The states of the sample JSON reader, with the key and the text read so far. -/
inductive JsonState where
  | start
  | openBrace
  | inKey (key : List Char)
  | colon (key : List Char)
  | quote (key : List Char)
  | inValue (key value : List Char)
  | afterValue
  | comma
  | done
  | bad
deriving DecidableEq, Repr

/-- One character of the sample JSON reader: the state and the entries read. -/
def jsonStep (st : JsonState × StringMap) (c : Char) : JsonState × StringMap :=
  match st.1 with
  | .start => if c = '{' then (.openBrace, st.2) else (.bad, st.2)
  | .openBrace =>
    if c = '"' then (.inKey [], st.2) else if c = '}' then (.done, st.2) else (.bad, st.2)
  | .inKey key =>
    if c = '"' then (.colon key, st.2)
    else if c = '\\' then (.bad, st.2) else (.inKey (key ++ [c]), st.2)
  | .colon key => if c = ':' then (.quote key, st.2) else (.bad, st.2)
  | .quote key => if c = '"' then (.inValue key [], st.2) else (.bad, st.2)
  | .inValue key value =>
    if c = '"' then (.afterValue, st.2 ++ [(String.mk key, String.mk value)])
    else if c = '\\' then (.bad, st.2) else (.inValue key (value ++ [c]), st.2)
  | .afterValue =>
    if c = ',' then (.comma, st.2) else if c = '}' then (.done, st.2) else (.bad, st.2)
  | .comma => if c = '"' then (.inKey [], st.2) else (.bad, st.2)
  | .done => (.bad, st.2)
  | .bad => (.bad, st.2)

/-- The sample JSON reader on a whole text. -/
def jsonRead (s : String) : JsonState × StringMap :=
  s.data.foldl jsonStep (.start, [])

/-- Assignment `m[k] = v` on a `map[string]string`. -/
def mapSet : StringMap → String → String → StringMap
  | [], k, v => [(k, v)]
  | (k0, v0) :: rest, k, v =>
    if k0 == k then (k, v) :: rest else (k0, v0) :: mapSet rest k v

/-- The sample syntax check: `""` is the unexpected end of the input, and so is
every text that stops before the closing brace. -/
def sampleCheckValid (s : String) : Option String :=
  match (jsonRead s).1 with
  | .done => none
  | .bad => some "invalid character in JSON input"
  | _ => some "unexpected end of JSON input"

/-- The sample decoder: every entry read is stored in the map, in order. -/
def sampleDecode (s : String) (m : StringMap) : StringMap × Option String :=
  ((jsonRead s).2.foldl (fun m kv => mapSet m kv.1 kv.2) m, none)

/-- The sample encoder: `null` for the nil pointer, else the status line and the
body. -/
def sampleMarshal : Option BackendResponse → Except String String
  | none => .ok "null"
  | some r => .ok ("Body=" ++ r.Body ++ " URI=" ++ r.URI)

/-- The sample `http.NewRequest`: a method that is not a token is refused, as is
a URL that does not parse. -/
def sampleNewRequest (method url : String) : Except String Request :=
  if method = "" ∨ ¬ method.data.all validHeaderFieldByte then
    .error ("net/http: invalid method " ++ method)
  else
    match sampleUrlParse url with
    | .error e => .error e
    | .ok u => .ok { Method := method, URL := some u, Header := [], RequestURI := "" }

/-- The sample environment around a backend: `Do` asks the backend and records
the request as sent. -/
def sampleEnv (backend : Request → Except String Response) : Env (List Request) :=
  { unicodeToUpper := fun c => c
    urlParse := sampleUrlParse
    urlString := sampleUrlString
    jsonCheckValid := sampleCheckValid
    jsonDecode := sampleDecode
    jsonMarshalIndent := sampleMarshal
    NewRequest := sampleNewRequest
    Do := fun _ r w => (backend r, w ++ [r]) }

/-- A backend that answers every request with status 200, the header
`X-Test: 1` and the body `hello`. -/
def helloBackend (r : Request) : Except String Response :=
  .ok { StatusCode := 200, Header := some [("X-Test", ["1"])],
        Body := { data := "hello", err := none }, Request := some r }

/-- A backend that cannot be reached. -/
def deadBackend (_ : Request) : Except String Response :=
  .error "dial tcp: connection refused"

/-- A backend whose body breaks off after the headers. -/
def brokenBackend (r : Request) : Except String Response :=
  .ok { StatusCode := 200, Header := some [],
        Body := { data := "hel", err := some "unexpected EOF" }, Request := some r }

/-- An inbound request carrying the three header values; an empty value stands for
a header that is absent. -/
def inbound (method url additionalHeaders : String) : Request :=
  { Method := "GET", URL := none, RequestURI := "/proxy",
    Header := ([("Method", method), ("Url", url), ("Additionalheaders", additionalHeaders)].filter
                (fun kv => kv.2 != "")).map (fun kv => (kv.1, [kv.2])) }

/-- The JSON document `{"X-Test":"1"}`. -/
def jsonXTest : String := "\x7b\"X-Test\":\"1\"\x7d"

/-- The JSON document `{"X-Secret":"s"}`. -/
def jsonXSecret : String := "\x7b\"X-Secret\":\"s\"\x7d"

/-- The JSON document `{"X-Trace":"t"}`. -/
def jsonXTrace : String := "\x7b\"X-Trace\":\"t\"\x7d"

/-- The parsed form of `http://backend.example/api`. -/
def backendUrl : URL :=
  { Scheme := "http", Opaque := "", Host := "backend.example", Path := "/api",
    RawQuery := "", Fragment := "" }

/-- The request `http.NewRequest` makes for `GET http://backend.example/api`,
with the given headers. -/
def backendGet (h : Header) : Request :=
  { Method := "GET", URL := some backendUrl, Header := h, RequestURI := "" }

/-- The descriptor for `GET http://backend.example/api` with the given extra
headers, before any call of the relay. -/
def descriptor (additionalHeaders : StringMap) : BackendRequest :=
  { Method := "GET", Url := some backendUrl, AdditionalHeaders := additionalHeaders,
    Body := "", HttpClient := none, Request := none }

/-! ## Definitions used in the statements -/

/-- The error `configureBackendRequest` returns, as a function of the `url` value
alone. -/
def builderError {W : Type} (env : Env W) (url : String) : Option String :=
  match env.urlParse url with
  | .error e => some e
  | .ok u => if u.Scheme = "" ∨ u.Host = "" then some "Invalid query input." else none

/-- The method the builder stores for a `method` value. -/
def methodOf {W : Type} (env : Env W) (method : String) : String :=
  if ToUpper env.unicodeToUpper method = "" then "GET" else ToUpper env.unicodeToUpper method

/-- The client `requestBackend` creates when the receiver has none. -/
def boundedClient : Client :=
  { Transport := some { MaxIdleConns := 3, IdleConnTimeout := 5 * Second,
                        DisableCompression := true } }

/-- The client of the receiver once `requestBackend` has passed its first
statement. -/
def clientOf (br : BackendRequest) : Client :=
  match br.HttpClient with
  | none => boundedClient
  | some c => c

/-- The call result that copies status, request URI, headers and body text of a
response. -/
def resultOf (res : Response) : BackendResponse :=
  { StatusCode := res.StatusCode
    URI := match res.Request with
      | some rq => rq.RequestURI
      | none => ""
    Headers := res.Header
    Body := res.Body.data }

/-- The last two steps of `GetHandler`, on what the relay returned. -/
def replyAfterRelay {W : Type} (env : Env W) (g : Globals) (br1 : BackendRequest)
    (res : Option BackendResponse) (w1 : W) : Option String → Outcome Reply × Globals × W
  | some e => (.returned ⟨500, e⟩, { g with Br := br1, resp := res, err := some e }, w1)
  | none =>
    match env.jsonMarshalIndent res with
    | .error e =>
      (.returned ⟨500, e⟩, { g with Br := br1, resp := res, jsonResp := none, err := some e }, w1)
    | .ok js =>
      (.returned ⟨200, js⟩,
        { g with Br := br1, resp := res, jsonResp := some js, err := none }, w1)

/-! ## Lemmas on the builder -/

/-- Go `strings.ToUpper` gives the empty text for the empty text only. -/
theorem toUpper_eq_empty (f : Char → Char) (s : String) : ToUpper f s = "" ↔ s = "" := by
  obtain ⟨cs⟩ := s
  unfold ToUpper
  cases cs with
  | nil => simp
  | cons c cs =>
    constructor
    · intro h
      split_ifs at h <;> simp [String.ext_iff] at h
    · intro h
      simp [String.ext_iff] at h

theorem headerGet_absent (h : Header) (key : String) (habs : Header.Values h key = []) :
    Header.Get h key = "" := by
  unfold Header.Values at habs
  unfold Header.Get
  rw [habs]

/-- The steps of `configureBackendRequest`, by the three header values. -/
theorem configure_eq {W : Type} (env : Env W) (br : BackendRequest) (req : Request) :
    configureBackendRequest env br req =
      match env.urlParse (Header.Get req.Header "url") with
      | .error e =>
        ({ br with Method := methodOf env (Header.Get req.Header "method"), Url := none }, some e)
      | .ok u =>
        if u.Scheme = "" ∨ u.Host = "" then
          ({ br with Method := methodOf env (Header.Get req.Header "method"), Url := some u },
            some "Invalid query input.")
        else
          ({ br with Method := methodOf env (Header.Get req.Header "method"), Url := some u,
                     AdditionalHeaders :=
                      (jsonUnmarshal env (Header.Get req.Header "additionalHeaders")
                        br.AdditionalHeaders).1 }, none) := by
  unfold configureBackendRequest methodOf
  by_cases hm : ToUpper env.unicodeToUpper (Header.Get req.Header "method") = ""
  · cases env.urlParse (Header.Get req.Header "url") with
    | error e => simp [hm]
    | ok u => by_cases h : u.Scheme = "" ∨ u.Host = "" <;> simp [hm, h]
  · cases env.urlParse (Header.Get req.Header "url") with
    | error e => simp [hm]
    | ok u => by_cases h : u.Scheme = "" ∨ u.Host = "" <;> simp [hm, h]

theorem configure_error_eq {W : Type} (env : Env W) (br : BackendRequest) (req : Request) :
    (configureBackendRequest env br req).2 = builderError env (Header.Get req.Header "url") := by
  unfold configureBackendRequest builderError
  cases env.urlParse (Header.Get req.Header "url") with
  | error e => rfl
  | ok u => by_cases h : u.Scheme = "" ∨ u.Host = "" <;> simp [h]

/-- A builder that succeeds leaves a URL with a scheme and a host in the
descriptor. -/
theorem configure_ok_url {W : Type} (env : Env W) (br : BackendRequest) (req : Request)
    (hok : (configureBackendRequest env br req).2 = none) :
    ∃ u, (configureBackendRequest env br req).1.Url = some u ∧ u.Scheme ≠ "" ∧ u.Host ≠ "" ∧
      env.urlParse (Header.Get req.Header "url") = .ok u := by
  unfold configureBackendRequest at hok ⊢
  cases hp : env.urlParse (Header.Get req.Header "url") with
  | error e => simp [hp] at hok
  | ok u =>
    by_cases h : u.Scheme = "" ∨ u.Host = ""
    · simp [hp, h] at hok
    · refine ⟨u, ?_, ?_, ?_, rfl⟩
      · simp [h]
      · exact fun hs => h (Or.inl hs)
      · exact fun hh => h (Or.inr hh)

/-- The builder does not touch the client, the request and the body of the
receiver. -/
theorem configure_keeps_client {W : Type} (env : Env W) (br : BackendRequest) (req : Request) :
    (configureBackendRequest env br req).1.HttpClient = br.HttpClient ∧
    (configureBackendRequest env br req).1.Request = br.Request ∧
    (configureBackendRequest env br req).1.Body = br.Body := by
  rw [configure_eq]
  cases env.urlParse (Header.Get req.Header "url") with
  | error e => simp
  | ok u => by_cases h : u.Scheme = "" ∨ u.Host = "" <;> simp [h]

/-- What the builder yields whatever the receiver held before: the outcome, the
method and the URL. -/
theorem configure_fresh_fields {W : Type} (env : Env W) (br1 br2 : BackendRequest)
    (req : Request) :
    (configureBackendRequest env br1 req).2 = (configureBackendRequest env br2 req).2 ∧
    (configureBackendRequest env br1 req).1.Method =
      (configureBackendRequest env br2 req).1.Method ∧
    (configureBackendRequest env br1 req).1.Url = (configureBackendRequest env br2 req).1.Url := by
  rw [configure_eq, configure_eq]
  cases env.urlParse (Header.Get req.Header "url") with
  | error e => simp
  | ok u => by_cases h : u.Scheme = "" ∨ u.Host = "" <;> simp [h]

/-- The extra headers after the builder: those the receiver held, passed through
the JSON decoder when the URL is accepted. -/
theorem configure_headers {W : Type} (env : Env W) (br : BackendRequest) (req : Request) :
    (configureBackendRequest env br req).1.AdditionalHeaders =
      if (configureBackendRequest env br req).2 = none then
        (jsonUnmarshal env (Header.Get req.Header "additionalHeaders") br.AdditionalHeaders).1
      else br.AdditionalHeaders := by
  rw [configure_eq]
  cases env.urlParse (Header.Get req.Header "url") with
  | error e => simp
  | ok u => by_cases h : u.Scheme = "" ∨ u.Host = "" <;> simp [h]

/-- On a value that is not well-formed JSON the builder leaves the extra headers
as the receiver held them. -/
theorem configure_invalid_json {W : Type} (env : Env W) (br : BackendRequest) (req : Request)
    (hbad : env.jsonCheckValid (Header.Get req.Header "additionalHeaders") ≠ none) :
    (configureBackendRequest env br req).1.AdditionalHeaders = br.AdditionalHeaders := by
  rw [configure_headers]
  split_ifs with hok
  · unfold jsonUnmarshal
    cases hv : env.jsonCheckValid (Header.Get req.Header "additionalHeaders") with
    | none => exact absurd hv hbad
    | some e => rfl
  · rfl

/-! ## Lemmas on the relay -/

/-- The steps of `requestBackend` on a receiver whose URL is set. -/
theorem relay_eq {W : Type} (env : Env W) (br : BackendRequest) (w : W) (u : URL)
    (hu : br.Url = some u) :
    requestBackend env br w =
      match env.NewRequest br.Method (env.urlString u) with
      | .error e =>
        (.returned (none, some ("Error on proxied request: " ++ e)),
          { br with HttpClient := some (clientOf br), Request := none }, w)
      | .ok r0 =>
        match env.Do (clientOf br)
            { r0 with Header := replayHeaders br.AdditionalHeaders r0.Header } w with
        | (.error e, w1) =>
          (.returned (none, some e),
            { br with HttpClient := some (clientOf br),
                      Request := some { r0 with Header := replayHeaders br.AdditionalHeaders r0.Header } },
            w1)
        | (.ok res, w1) =>
          match res.Body.err with
          | some e =>
            (.returned (none, some ("Error parsing body: " ++ e)),
              { br with HttpClient := some (clientOf br),
                        Request := some { r0 with Header := replayHeaders br.AdditionalHeaders r0.Header } },
              w1)
          | none =>
            (.returned (some (resultOf res), none),
              { br with HttpClient := some (clientOf br),
                        Request := some { r0 with Header := replayHeaders br.AdditionalHeaders r0.Header } },
              w1) := by
  obtain ⟨m, url, ah, body, hc, rq⟩ := br
  simp only at hu
  subst hu
  cases hc <;> simp only [requestBackend, clientOf, boundedClient] <;>
    cases env.NewRequest m (env.urlString u) with
    | error e => rfl
    | ok r0 =>
      simp only
      rcases env.Do _ _ w with ⟨_ | res, w1⟩
      · rfl
      · obtain ⟨sc, hd, ⟨data, err⟩, rq1⟩ := res
        cases err with
        | some e => rfl
        | none =>
          simp only [ReadAll, resultOf, BackendResponse.zero]
          by_cases hsc : sc = 0 <;> by_cases hdata : data = "" <;> cases hd <;>
            rcases rq1 with _ | rq1 <;> simp [hsc, hdata]
          all_goals by_cases huri : rq1.RequestURI = "" <;> simp [huri]

/-- On a receiver without a URL `requestBackend` panics, after the client is set. -/
theorem relay_panics {W : Type} (env : Env W) (br : BackendRequest) (w : W)
    (hu : br.Url = none) :
    requestBackend env br w = (.panicked, { br with HttpClient := some (clientOf br) }, w) := by
  obtain ⟨m, url, ah, body, hc, rq⟩ := br
  simp only at hu
  subst hu
  cases hc <;> rfl

/-- On a receiver whose URL is set `requestBackend` returns. -/
theorem relay_returns {W : Type} (env : Env W) (br : BackendRequest) (w : W) (u : URL)
    (hu : br.Url = some u) :
    ∃ res err br1 w1, requestBackend env br w = (.returned (res, err), br1, w1) ∧
      ((res ≠ none ∧ err = none) ∨ (res = none ∧ err ≠ none)) := by
  rw [relay_eq env br w u hu]
  cases env.NewRequest br.Method (env.urlString u) with
  | error e => exact ⟨_, _, _, _, rfl, Or.inr ⟨rfl, by simp⟩⟩
  | ok r0 =>
    simp only
    rcases env.Do (clientOf br) _ w with ⟨_ | res, w1⟩
    · exact ⟨_, _, _, _, rfl, Or.inr ⟨rfl, by simp⟩⟩
    · simp only
      cases res.Body.err with
      | some e => exact ⟨_, _, _, _, rfl, Or.inr ⟨rfl, by simp⟩⟩
      | none => exact ⟨_, _, _, _, rfl, Or.inl ⟨by simp, rfl⟩⟩

/-- The client of the receiver after `requestBackend`, in every case. -/
theorem relay_client {W : Type} (env : Env W) (br : BackendRequest) (w : W) :
    (requestBackend env br w).2.1.HttpClient = some (clientOf br) := by
  cases hu : br.Url with
  | none => rw [relay_panics env br w hu]
  | some u =>
    rw [relay_eq env br w u hu]
    cases env.NewRequest br.Method (env.urlString u) with
    | error e => rfl
    | ok r0 =>
      simp only
      rcases env.Do (clientOf br) _ w with ⟨_ | res, w1⟩
      · rfl
      · simp only
        cases res.Body.err <;> rfl

/-- The client of the shared `BackendRequest` is kept by every call once it is
set. -/
theorem runCalls_keeps_client {W : Type} (env : Env W) (calls : List Call)
    (s : BackendRequest × W) (c : Client) (hc : s.1.HttpClient = some c) :
    (runCalls env s calls).1.HttpClient = some c := by
  induction calls generalizing s with
  | nil => exact hc
  | cons call rest ih =>
    unfold runCalls
    rw [List.foldl_cons]
    apply ih
    cases call with
    | configure req =>
      simp only [runCall]
      rw [(configure_keeps_client env s.1 req).1]
      exact hc
    | request =>
      simp only [runCall]
      rw [relay_client, clientOf, hc]

/-- The reply of `GetHandler` once the builder has succeeded and the relay has
returned. -/
theorem GetHandler_after_relay {W : Type} (env : Env W) (g : Globals) (req : Request) (w : W)
    (br br1 : BackendRequest) (res : Option BackendResponse) (err : Option String) (w1 : W)
    (hc : configureBackendRequest env g.Br req = (br, none))
    (hrun : requestBackend env br w = (.returned (res, err), br1, w1)) :
    GetHandler env g req w = replyAfterRelay env g br1 res w1 err := by
  unfold GetHandler replyAfterRelay
  simp only [hc, hrun]
  cases err <;> rfl

/-- Every reply of `GetHandler` occurs in the sample environment: 400 for a URL
without a host, 500 for a method the request cannot be built with, for a backend
that cannot be reached and for a body that breaks off, 200 otherwise. -/
theorem GetHandler_samples :
    (GetHandler (sampleEnv helloBackend) Globals.init
      (inbound "" "backend.example/api" "") []).1 =
        .returned ⟨400, "Invalid query input."⟩ ∧
    (GetHandler (sampleEnv helloBackend) Globals.init
      (inbound "ge t" "http://backend.example/api" "") []).1 =
        .returned ⟨500, "Error on proxied request: net/http: invalid method GE T"⟩ ∧
    (GetHandler (sampleEnv deadBackend) Globals.init
      (inbound "get" "http://backend.example/api" "") []).1 =
        .returned ⟨500, "dial tcp: connection refused"⟩ ∧
    (GetHandler (sampleEnv brokenBackend) Globals.init
      (inbound "get" "http://backend.example/api" "") []).1 =
        .returned ⟨500, "Error parsing body: unexpected EOF"⟩ ∧
    (GetHandler (sampleEnv helloBackend) Globals.init
      (inbound "get" "http://backend.example/api" "") []).1 =
        .returned ⟨200, "Body=hello URI="⟩ := by
  decide

/-! ## Lemmas on headers -/

theorem headerIndex_nil (k1 : String) : headerIndex [] k1 = [] := rfl

theorem headerIndex_cons (k0 : String) (v0 : List String) (rest : Header) (k1 : String) :
    headerIndex ((k0, v0) :: rest) k1 = if k0 = k1 then v0 else headerIndex rest k1 := by
  unfold headerIndex
  by_cases h : k0 = k1
  · have hb : (k0 == k1) = true := by simpa using h
    simp [List.find?_cons, hb, h]
  · have hb : (k0 == k1) = false := by simpa using h
    simp [List.find?_cons, hb, h]

theorem headerSet_cons (k0 : String) (v0 : List String) (rest : Header) (k : String)
    (vs : List String) :
    headerSet ((k0, v0) :: rest) k vs =
      if k0 = k then (k, vs) :: rest else (k0, v0) :: headerSet rest k vs := by
  by_cases h : k0 = k
  · have hb : (k0 == k) = true := by simpa using h
    simp [headerSet, hb, h]
  · have hb : (k0 == k) = false := by simpa using h
    simp [headerSet, hb, h]

theorem headerIndex_headerSet (h : Header) (k k1 : String) (vs : List String) :
    headerIndex (headerSet h k vs) k1 = if k = k1 then vs else headerIndex h k1 := by
  induction h with
  | nil =>
    show headerIndex [(k, vs)] k1 = _
    rw [headerIndex_cons]
  | cons entry rest ih =>
    obtain ⟨k0, v0⟩ := entry
    rw [headerSet_cons]
    by_cases h0 : k0 = k
    · subst h0
      rw [if_pos rfl, headerIndex_cons, headerIndex_cons]
      by_cases hk : k0 = k1 <;> simp [hk]
    · rw [if_neg h0, headerIndex_cons, headerIndex_cons, ih]
      by_cases h1 : k0 = k1
      · subst h1
        have hk : ¬ k = k0 := fun hkk => h0 hkk.symm
        simp [hk]
      · simp [h1]

/-- The values under a name after `Add`: one more when the added name has the same
canonical form, the same otherwise. -/
theorem values_add (h : Header) (key value name : String) :
    Header.Values (Header.Add h key value) name =
      if CanonicalMIMEHeaderKey key = CanonicalMIMEHeaderKey name then
        Header.Values h name ++ [value]
      else Header.Values h name := by
  unfold Header.Values Header.Add
  simp only [headerIndex_headerSet]
  by_cases hk : CanonicalMIMEHeaderKey key = CanonicalMIMEHeaderKey name
  · simp [hk]
  · simp [hk]

/-- The values under a name after a replay of entries with one fixed value. -/
theorem values_foldl_add (entries : StringMap) (fixed : String) (h : Header) (name : String) :
    Header.Values (entries.foldl (fun h entry => Header.Add h entry.2 fixed) h) name =
      Header.Values h name ++
        List.replicate
          (entries.countP
            (fun kv => CanonicalMIMEHeaderKey kv.2 == CanonicalMIMEHeaderKey name)) fixed := by
  induction entries generalizing h with
  | nil => simp
  | cons entry rest ih =>
    rw [List.foldl_cons, ih, values_add, List.countP_cons]
    by_cases hk : CanonicalMIMEHeaderKey entry.2 = CanonicalMIMEHeaderKey name
    · simp [hk, List.replicate_succ]
    · simp [hk]

/-- The values under a name after the header loop of `requestBackend`. -/
theorem values_replayHeaders (additionalHeaders : StringMap) (h : Header) (name : String) :
    Header.Values (replayHeaders additionalHeaders h) name =
      Header.Values h name ++
        List.replicate
          (additionalHeaders.countP
            (fun kv => CanonicalMIMEHeaderKey kv.2 == CanonicalMIMEHeaderKey name))
          (mapIndex additionalHeaders "header") :=
  values_foldl_add additionalHeaders (mapIndex additionalHeaders "header") h name

/-! ## The claims -/

/-- C1: `configureBackendRequest` returns an error if and only if `url.Parse` fails
on the `url` value or the parsed URL has an empty scheme or an empty host. The
error returned is the same for every receiver and every request with that `url`
value, whatever the `method` and `additionalHeaders` values are. An absent or an
empty `url` is rejected, given that `url.Parse` does not find both a scheme and a
host in the empty text (a fact of Go `net/url`, which returns the empty URL
there). -/
theorem configureBackendRequest_error_iff {W : Type} (env : Env W)
    (br : BackendRequest) (req : Request) :
    ((configureBackendRequest env br req).2 ≠ none ↔
      ((∃ e, env.urlParse (Header.Get req.Header "url") = .error e) ∨
        ∃ u, env.urlParse (Header.Get req.Header "url") = .ok u ∧
          (u.Scheme = "" ∨ u.Host = ""))) ∧
    ((∀ u, env.urlParse "" = .ok u → u.Scheme = "" ∨ u.Host = "") →
      (Header.Values req.Header "url" = [] ∨ Header.Get req.Header "url" = "") →
      (configureBackendRequest env br req).2 ≠ none) ∧
    (∀ (br2 : BackendRequest) (req2 : Request),
      Header.Get req2.Header "url" = Header.Get req.Header "url" →
      (configureBackendRequest env br2 req2).2 = (configureBackendRequest env br req).2) := by
  have key : ∀ url : String, builderError env url ≠ none ↔
      ((∃ e, env.urlParse url = .error e) ∨
        ∃ u, env.urlParse url = .ok u ∧ (u.Scheme = "" ∨ u.Host = "")) := by
    intro url
    unfold builderError
    cases hp : env.urlParse url with
    | error e => simp
    | ok u => by_cases h : u.Scheme = "" ∨ u.Host = "" <;> simp [h]
  refine ⟨?_, ?_, ?_⟩
  · rw [configure_error_eq]
    exact key _
  · intro hempty habs
    have hurl : Header.Get req.Header "url" = "" := by
      rcases habs with habs | habs
      · exact headerGet_absent _ _ habs
      · exact habs
    rw [configure_error_eq, hurl, key]
    cases hp : env.urlParse "" with
    | error e => exact Or.inl ⟨e, rfl⟩
    | ok u => exact Or.inr ⟨u, rfl, hempty u hp⟩
  · intro br2 req2 hsame
    rw [configure_error_eq, configure_error_eq, hsame]

/-- Witness of C1: in the sample environment a request without a `url` header is
rejected. -/
theorem configureBackendRequest_error_iff_witness :
    (∀ u, (sampleEnv helloBackend).urlParse "" = .ok u → u.Scheme = "" ∨ u.Host = "") ∧
    (configureBackendRequest (sampleEnv helloBackend) BackendRequest.zero
      (inbound "GET" "" "")).2 ≠ none :=
  have hempty : ∀ u, (sampleEnv helloBackend).urlParse "" = .ok u →
      u.Scheme = "" ∨ u.Host = "" := by
    intro u hu
    have hval : (sampleEnv helloBackend).urlParse "" =
        .ok { Scheme := "", Opaque := "", Host := "", Path := "", RawQuery := "",
              Fragment := "" } := rfl
    rw [hval] at hu
    cases hu
    exact Or.inl rfl
  ⟨hempty,
    (configureBackendRequest_error_iff (sampleEnv helloBackend) BackendRequest.zero
      (inbound "GET" "" "")).2.1 hempty (Or.inl (by decide))⟩

/-- C2: `GetHandler` answers 400 exactly when `configureBackendRequest` fails; the
reply then carries the text of the builder's error, and the package variables and
the world are those the builder alone leaves, `requestBackend` not having run (the
client and the request of `Br` are untouched, nothing is sent). When the builder
succeeds `requestBackend` runs on the descriptor built and returns: an error of it
is answered with 500 and its text, an error of the JSON encoder with 500 and its
text, and otherwise the answer is 200 with the encoding of the result. -/
theorem GetHandler_outcome {W : Type} (env : Env W) (g : Globals) (req : Request) (w : W) :
    ((∃ text, (GetHandler env g req w).1 = .returned ⟨400, text⟩) ↔
      (configureBackendRequest env g.Br req).2 ≠ none) ∧
    (∀ e, (configureBackendRequest env g.Br req).2 = some e →
      GetHandler env g req w =
        (.returned ⟨400, e⟩,
          { g with Br := (configureBackendRequest env g.Br req).1, err := some e }, w) ∧
      (GetHandler env g req w).2.1.Br.HttpClient = g.Br.HttpClient ∧
      (GetHandler env g req w).2.1.Br.Request = g.Br.Request) ∧
    ((configureBackendRequest env g.Br req).2 = none →
      ∃ res err br1 w1,
        requestBackend env (configureBackendRequest env g.Br req).1 w =
          (.returned (res, err), br1, w1) ∧
        (GetHandler env g req w).2.1.Br = br1 ∧ (GetHandler env g req w).2.2 = w1 ∧
        (∀ e, err = some e → (GetHandler env g req w).1 = .returned ⟨500, e⟩) ∧
        (err = none →
          res ≠ none ∧
          (∀ e, env.jsonMarshalIndent res = .error e →
            (GetHandler env g req w).1 = .returned ⟨500, e⟩) ∧
          (∀ js, env.jsonMarshalIndent res = .ok js →
            (GetHandler env g req w).1 = .returned ⟨200, js⟩))) := by
  have hkeep := configure_keeps_client env g.Br req
  have hurl := configure_ok_url env g.Br req
  rcases hc : configureBackendRequest env g.Br req with ⟨br, _ | e⟩
  · -- the builder succeeds
    rw [hc] at hurl
    obtain ⟨u, hu, -⟩ := hurl rfl
    obtain ⟨res, err, br1, w1, hrun, hxor⟩ := relay_returns env br w u hu
    have hreply := GetHandler_after_relay env g req w br br1 res err w1 hc hrun
    refine ⟨?_, ?_, ?_⟩
    · simp only [ne_eq, not_true_eq_false, iff_false, not_exists]
      intro text
      rw [hreply]
      unfold replyAfterRelay
      cases err with
      | some e => simp
      | none => cases env.jsonMarshalIndent res <;> simp
    · intro e he
      cases he
    · intro _
      refine ⟨res, err, br1, w1, hrun, ?_, ?_, ?_, ?_⟩
      · rw [hreply]
        unfold replyAfterRelay
        cases err with
        | some e => rfl
        | none => cases env.jsonMarshalIndent res <;> rfl
      · rw [hreply]
        unfold replyAfterRelay
        cases err with
        | some e => rfl
        | none => cases env.jsonMarshalIndent res <;> rfl
      · intro e he
        rw [hreply, he]
        rfl
      · intro he
        subst he
        refine ⟨?_, ?_, ?_⟩
        · rcases hxor with h | h
          · exact h.1
          · exact absurd rfl h.2
        · intro e hm
          rw [hreply]
          simp only [replyAfterRelay, hm]
        · intro js hm
          rw [hreply]
          simp only [replyAfterRelay, hm]
  · -- the builder fails
    rw [hc] at hkeep
    have hreply : GetHandler env g req w =
        (.returned ⟨400, e⟩, { g with Br := br, err := some e }, w) := by
      unfold GetHandler
      simp only [hc]
      rfl
    refine ⟨?_, ?_, ?_⟩
    · simp only [ne_eq, reduceCtorEq, not_false_eq_true, iff_true]
      exact ⟨e, by rw [hreply]⟩
    · intro e1 he
      cases he
      refine ⟨hreply, ?_, ?_⟩
      · rw [hreply]
        exact hkeep.1
      · rw [hreply]
        exact hkeep.2.1
    · intro h
      cases h

/-- C3, the code at a failing input: a caller asks for the header `X-Test: 1`. The
builder stores the entry, and the request the relay sends carries no header
`X-Test` at all; it carries a header named `1`, after the value of the entry, with
the empty value. -/
theorem requestBackend_drops_caller_header :
    (configureBackendRequest (sampleEnv helloBackend) BackendRequest.zero
      (inbound "" "http://backend.example/api" jsonXTest)).1.AdditionalHeaders =
        [("X-Test", "1")] ∧
    (GetHandler (sampleEnv helloBackend) Globals.init
      (inbound "" "http://backend.example/api" jsonXTest) []).2.2 =
        [backendGet [("1", [""])]] ∧
    Header.Values (backendGet [("1", [""])]).Header "X-Test" = [] := by
  decide

/-- C4, the code at a failing input: the same header values build two different
descriptors from two prior states of `Br`. After a first call that asked for the
header `X-Secret`, a second call asking for `X-Trace` only has both entries in its
descriptor; on the initial `Br` it has `X-Trace` alone. -/
theorem configureBackendRequest_keeps_earlier_entries :
    (configureBackendRequest (sampleEnv helloBackend)
      (configureBackendRequest (sampleEnv helloBackend) BackendRequest.zero
        (inbound "" "http://backend.example/api" jsonXSecret)).1
      (inbound "" "http://backend.example/api" jsonXTrace)).1.AdditionalHeaders =
        [("X-Secret", "s"), ("X-Trace", "t")] ∧
    (configureBackendRequest (sampleEnv helloBackend) BackendRequest.zero
      (inbound "" "http://backend.example/api" jsonXTrace)).1.AdditionalHeaders =
        [("X-Trace", "t")] := by
  decide

/-- C5, the code at a failing input: after a first call that asked for the header
`X-Secret`, a call with a valid `url` and no `additionalHeaders`, and one with a
broken-off JSON document, both succeed with the entry `X-Secret` in the
descriptor, not with an empty mapping. -/
theorem configureBackendRequest_malformed_json_keeps_entries :
    (configureBackendRequest (sampleEnv helloBackend)
      (configureBackendRequest (sampleEnv helloBackend) BackendRequest.zero
        (inbound "" "http://backend.example/api" jsonXSecret)).1
      (inbound "" "http://backend.example/api" "")).2 = none ∧
    (configureBackendRequest (sampleEnv helloBackend)
      (configureBackendRequest (sampleEnv helloBackend) BackendRequest.zero
        (inbound "" "http://backend.example/api" jsonXSecret)).1
      (inbound "" "http://backend.example/api" "")).1.AdditionalHeaders =
        [("X-Secret", "s")] ∧
    (configureBackendRequest (sampleEnv helloBackend)
      (configureBackendRequest (sampleEnv helloBackend) BackendRequest.zero
        (inbound "" "http://backend.example/api" jsonXSecret)).1
      (inbound "" "http://backend.example/api" "\x7b\"X-Trace\":")).2 = none ∧
    (configureBackendRequest (sampleEnv helloBackend)
      (configureBackendRequest (sampleEnv helloBackend) BackendRequest.zero
        (inbound "" "http://backend.example/api" jsonXSecret)).1
      (inbound "" "http://backend.example/api" "\x7b\"X-Trace\":")).1.AdditionalHeaders =
        [("X-Secret", "s")] := by
  decide

/-- C6: after `configureBackendRequest` the method of the descriptor is `GET` when
the `method` value is absent or empty and the upper case of the value otherwise,
and it is never empty. A request whose `method` value is empty and a request whose
`method` value is `GET`, with the same `url` and `additionalHeaders` values, give
the same descriptor and the same outcome. This holds for every `url` value, valid
or not. -/
theorem configureBackendRequest_method {W : Type} (env : Env W) (br : BackendRequest)
    (req : Request) :
    ((Header.Values req.Header "method" = [] ∨ Header.Get req.Header "method" = "") →
      (configureBackendRequest env br req).1.Method = "GET") ∧
    (Header.Get req.Header "method" ≠ "" →
      (configureBackendRequest env br req).1.Method =
        ToUpper env.unicodeToUpper (Header.Get req.Header "method")) ∧
    (configureBackendRequest env br req).1.Method ≠ "" ∧
    (∀ req2 : Request,
      Header.Get req.Header "method" = "" → Header.Get req2.Header "method" = "GET" →
      Header.Get req2.Header "url" = Header.Get req.Header "url" →
      Header.Get req2.Header "additionalHeaders" = Header.Get req.Header "additionalHeaders" →
      configureBackendRequest env br req2 = configureBackendRequest env br req) := by
  have hmethod : (configureBackendRequest env br req).1.Method =
      methodOf env (Header.Get req.Header "method") := by
    rw [configure_eq]
    cases env.urlParse (Header.Get req.Header "url") with
    | error e => rfl
    | ok u => by_cases h : u.Scheme = "" ∨ u.Host = "" <;> simp [h]
  refine ⟨?_, ?_, ?_, ?_⟩
  · intro habs
    have hm : Header.Get req.Header "method" = "" := by
      rcases habs with habs | habs
      · exact headerGet_absent _ _ habs
      · exact habs
    rw [hmethod, hm]
    rfl
  · intro hne
    rw [hmethod]
    unfold methodOf
    rw [if_neg]
    rw [toUpper_eq_empty]
    exact hne
  · rw [hmethod]
    unfold methodOf
    split_ifs with h
    · decide
    · exact h
  · intro req2 hm hm2 hu ha
    rw [configure_eq, configure_eq, hm, hm2, hu, ha]
    have hget : methodOf env "GET" = methodOf env "" := by
      unfold methodOf
      rfl
    rw [hget]

/-- C7: when the request is built, the backend answers and the body is read in
full, `requestBackend` returns a call result (and no error) whose status code,
headers and body are those of the response and whose URI is the request URI of the
request the response names, empty when it names none. -/
theorem requestBackend_copies_response {W : Type} (env : Env W) (br : BackendRequest) (w w1 : W)
    (u : URL) (r0 : Request) (res : Response)
    (hu : br.Url = some u)
    (hnew : env.NewRequest br.Method (env.urlString u) = .ok r0)
    (hdo : env.Do (clientOf br)
      { r0 with Header := replayHeaders br.AdditionalHeaders r0.Header } w = (.ok res, w1))
    (hread : (ReadAll res.Body).2 = none) :
    (requestBackend env br w).1 =
      .returned (some { StatusCode := res.StatusCode
                        URI := match res.Request with
                          | some rq => rq.RequestURI
                          | none => ""
                        Headers := res.Header
                        Body := (ReadAll res.Body).1 }, none) := by
  rw [relay_eq env br w u hu]
  simp only [hnew, hdo]
  simp only [ReadAll] at hread
  simp only [hread]
  rfl

/-- Witness of C7: a backend answering status 200, header `X-Test: 1` and body
`hello` gives the call result with exactly these. -/
theorem requestBackend_copies_response_witness :
    (requestBackend (sampleEnv helloBackend)
      (configureBackendRequest (sampleEnv helloBackend) BackendRequest.zero
        (inbound "" "http://backend.example/api" "")).1 []).1 =
      .returned (some { StatusCode := 200, URI := "", Headers := some [("X-Test", ["1"])],
                        Body := "hello" }, none) :=
  requestBackend_copies_response (sampleEnv helloBackend)
    (configureBackendRequest (sampleEnv helloBackend) BackendRequest.zero
      (inbound "" "http://backend.example/api" "")).1 []
    [{ Method := "GET"
       URL := some { Scheme := "http", Opaque := "", Host := "backend.example", Path := "/api",
                     RawQuery := "", Fragment := "" }
       Header := [], RequestURI := "" }]
    { Scheme := "http", Opaque := "", Host := "backend.example", Path := "/api",
      RawQuery := "", Fragment := "" }
    { Method := "GET"
      URL := some { Scheme := "http", Opaque := "", Host := "backend.example", Path := "/api",
                    RawQuery := "", Fragment := "" }
      Header := [], RequestURI := "" }
    { StatusCode := 200, Header := some [("X-Test", ["1"])],
      Body := { data := "hello", err := none }
      Request := some { Method := "GET"
                        URL := some { Scheme := "http", Opaque := "", Host := "backend.example",
                                      Path := "/api", RawQuery := "", Fragment := "" }
                        Header := [], RequestURI := "" } }
    rfl rfl rfl rfl

/-- C8: `requestBackend` returns whenever the descriptor has a URL (which the
builder guarantees), and of the result and the error it returns exactly one is
non-nil: a failure to build the request, a failure of the transport and a failure
to read the body each return a nil result with an error, and success returns a
result with a nil error. -/
theorem requestBackend_result_xor_error {W : Type} (env : Env W) (br : BackendRequest)
    (w : W) :
    (br.Url ≠ none → ∃ res err, (requestBackend env br w).1 = .returned (res, err)) ∧
    (∀ res err, (requestBackend env br w).1 = .returned (res, err) →
      (res ≠ none ∧ err = none) ∨ (res = none ∧ err ≠ none)) ∧
    (∀ u e, br.Url = some u → env.NewRequest br.Method (env.urlString u) = .error e →
      (requestBackend env br w).1 =
        .returned (none, some ("Error on proxied request: " ++ e))) ∧
    (∀ u r0 e w1, br.Url = some u → env.NewRequest br.Method (env.urlString u) = .ok r0 →
      env.Do (clientOf br)
        { r0 with Header := replayHeaders br.AdditionalHeaders r0.Header } w = (.error e, w1) →
      (requestBackend env br w).1 = .returned (none, some e)) ∧
    (∀ u r0 res e w1, br.Url = some u →
      env.NewRequest br.Method (env.urlString u) = .ok r0 →
      env.Do (clientOf br)
        { r0 with Header := replayHeaders br.AdditionalHeaders r0.Header } w = (.ok res, w1) →
      (ReadAll res.Body).2 = some e →
      (requestBackend env br w).1 = .returned (none, some ("Error parsing body: " ++ e))) ∧
    (∀ u r0 res w1, br.Url = some u →
      env.NewRequest br.Method (env.urlString u) = .ok r0 →
      env.Do (clientOf br)
        { r0 with Header := replayHeaders br.AdditionalHeaders r0.Header } w = (.ok res, w1) →
      (ReadAll res.Body).2 = none →
      ∃ result, (requestBackend env br w).1 = .returned (some result, none)) := by
  refine ⟨?_, ?_, ?_, ?_, ?_, ?_⟩
  · intro hne
    cases hu : br.Url with
    | none => exact absurd hu hne
    | some u =>
      obtain ⟨res, err, br1, w1, hrun, -⟩ := relay_returns env br w u hu
      exact ⟨res, err, by rw [hrun]⟩
  · intro res err hret
    cases hu : br.Url with
    | none =>
      rw [relay_panics env br w hu] at hret
      cases hret
    | some u =>
      obtain ⟨res1, err1, br1, w1, hrun, hxor⟩ := relay_returns env br w u hu
      rw [hrun] at hret
      cases hret
      exact hxor
  · intro u e hu hnew
    rw [relay_eq env br w u hu]
    simp only [hnew]
  · intro u r0 e w1 hu hnew hdo
    rw [relay_eq env br w u hu]
    simp only [hnew, hdo]
  · intro u r0 res e w1 hu hnew hdo hread
    rw [relay_eq env br w u hu]
    simp only [ReadAll] at hread
    simp only [hnew, hdo, hread]
  · intro u r0 res w1 hu hnew hdo hread
    rw [relay_eq env br w u hu]
    simp only [ReadAll] at hread
    simp only [hnew, hdo, hread]
    exact ⟨_, rfl⟩

/-- C9 as stated fails: with the entries `X-Test: 1` and `header: v` the request
sent carries the headers `1: v` and `V: v`, named after the values of the entries,
and it is not the case that every key of an entry names a header carrying the
value stored under `header`. -/
theorem replay_names_are_not_the_keys :
    (requestBackend (sampleEnv helloBackend)
      (descriptor [("X-Test", "1"), ("header", "v")]) []).2.2 =
        [backendGet [("1", ["v"]), ("V", ["v"])]] ∧
    ¬ (∀ kv ∈ (descriptor [("X-Test", "1"), ("header", "v")]).AdditionalHeaders,
        mapIndex (descriptor [("X-Test", "1"), ("header", "v")]).AdditionalHeaders "header" ∈
          Header.Values (backendGet [("1", ["v"]), ("V", ["v"])]).Header kv.1) := by
  decide

/-- C9 as amended: when the request is built, the request `requestBackend` hands to
the client is the one `http.NewRequest` made with extra headers, and for every
entry of `AdditionalHeaders` a header named after the value of the entry (in
canonical form) carries the value stored under the literal key `header`, empty
when there is no such key. Under every name the values are those of the new
request followed by that one fixed value, once for each entry whose value has the
canonical form of the name. -/
theorem requestBackend_replays_values_as_names {W : Type} (env : Env W) (br : BackendRequest)
    (w : W) (u : URL) (r0 : Request)
    (hu : br.Url = some u)
    (hnew : env.NewRequest br.Method (env.urlString u) = .ok r0) :
    ∃ out : Request,
      (requestBackend env br w).2.1.Request = some out ∧
      (requestBackend env br w).2.2 = (env.Do (clientOf br) out w).2 ∧
      out = { r0 with Header := out.Header } ∧
      (∀ kv ∈ br.AdditionalHeaders,
        mapIndex br.AdditionalHeaders "header" ∈ Header.Values out.Header kv.2) ∧
      (∀ name : String,
        Header.Values out.Header name =
          Header.Values r0.Header name ++
            List.replicate
              (br.AdditionalHeaders.countP
                (fun kv => CanonicalMIMEHeaderKey kv.2 == CanonicalMIMEHeaderKey name))
              (mapIndex br.AdditionalHeaders "header")) := by
  refine ⟨{ r0 with Header := replayHeaders br.AdditionalHeaders r0.Header }, ?_, ?_, rfl, ?_, ?_⟩
  · rw [relay_eq env br w u hu]
    simp only [hnew]
    rcases env.Do (clientOf br) _ w with ⟨_ | res, w1⟩
    · rfl
    · simp only
      cases res.Body.err <;> rfl
  · rw [relay_eq env br w u hu]
    simp only [hnew]
    rcases env.Do (clientOf br) _ w with ⟨_ | res, w1⟩
    · rfl
    · simp only
      cases res.Body.err <;> rfl
  · intro kv hkv
    simp only [values_replayHeaders]
    apply List.mem_append_right
    rw [List.mem_replicate]
    refine ⟨?_, rfl⟩
    have hpos : 0 < br.AdditionalHeaders.countP
        (fun e => CanonicalMIMEHeaderKey e.2 == CanonicalMIMEHeaderKey kv.2) :=
      List.countP_pos_iff.mpr ⟨kv, hkv, by simp⟩
    omega
  · intro name
    simp only [values_replayHeaders]

/-- Witness of C9 as amended: with the entries `X-Test: 1` and `header: v` the
request sent carries `v` under the name `1`. -/
theorem requestBackend_replays_values_as_names_witness :
    ∃ out : Request,
      (requestBackend (sampleEnv helloBackend)
        (descriptor [("X-Test", "1"), ("header", "v")]) []).2.1.Request = some out ∧
      "v" ∈ Header.Values out.Header "1" := by
  obtain ⟨out, hreq, -, -, hval, -⟩ :=
    requestBackend_replays_values_as_names (sampleEnv helloBackend)
      (descriptor [("X-Test", "1"), ("header", "v")]) [] backendUrl (backendGet []) rfl rfl
  exact ⟨out, hreq, hval ("X-Test", "1") (by decide)⟩

/-- C10: a call of `requestBackend` leaves as client of the receiver the client it
found, and creates one only when it found none: the client whose transport has
`MaxIdleConns` 3, `IdleConnTimeout` 5 seconds and `DisableCompression` true. So
the client is non-nil after any call, also one that fails to build its request,
and in every sequence of calls of the relay and the builder on the shared
`BackendRequest` the client, once there, is the same after every later call. -/
theorem requestBackend_client_created_once {W : Type} (env : Env W) (br : BackendRequest)
    (w : W) :
    (∀ c, br.HttpClient = some c → (requestBackend env br w).2.1.HttpClient = some c) ∧
    (br.HttpClient = none →
      (requestBackend env br w).2.1.HttpClient =
        some { Transport := some { MaxIdleConns := 3, IdleConnTimeout := 5 * 1000000000,
                                   DisableCompression := true } }) ∧
    (requestBackend env br w).2.1.HttpClient ≠ none ∧
    (∀ u e, br.Url = some u → env.NewRequest br.Method (env.urlString u) = .error e →
      (requestBackend env br w).2.1.HttpClient ≠ none) ∧
    (∀ (before after : List Call),
      (runCalls env (br, w) (before ++ Call.request :: after)).1.HttpClient =
        (runCalls env (br, w) (before ++ [Call.request])).1.HttpClient ∧
      (runCalls env (br, w) (before ++ Call.request :: after)).1.HttpClient ≠ none) := by
  have hstep := relay_client env br w
  refine ⟨?_, ?_, ?_, ?_, ?_⟩
  · intro c hc
    rw [hstep, clientOf, hc]
  · intro hc
    rw [hstep, clientOf, hc]
    rfl
  · rw [hstep]
    simp
  · intro u e _ _
    rw [hstep]
    simp
  · intro before after
    have hfirst : (runCalls env (br, w) (before ++ [Call.request])).1.HttpClient =
        some (clientOf (runCalls env (br, w) before).1) := by
      unfold runCalls
      rw [List.foldl_append]
      simp only [List.foldl_cons, List.foldl_nil, runCall]
      exact relay_client env _ _
    have hlater : (runCalls env (br, w) (before ++ Call.request :: after)).1.HttpClient =
        some (clientOf (runCalls env (br, w) before).1) := by
      have hsplit : runCalls env (br, w) (before ++ Call.request :: after) =
          runCalls env (runCalls env (br, w) (before ++ [Call.request])) after := by
        unfold runCalls
        rw [← List.foldl_append, List.append_assoc]
        rfl
      rw [hsplit]
      exact runCalls_keeps_client env after _ _ hfirst
    rw [hfirst, hlater]
    simp

end Httpod
